import Mathlib

/-!
Verification development for the CogniFlow repository.

The development shallowly embeds the two specified cores of the code base:

* `src/mcp_server_telegram_sse.py` — the event broadcast bridge: the pure
  payload-extraction and webhook-handler logic, and a small-step transition
  system for the central queue / subscriber-set fan-out loop;
* `src/core/session.py` — the `MultiMCP` tool registry: config-driven
  registration into the `tool_map` dictionary, and `call_tool` dispatch over
  the stdio and http transports.

Python dictionaries are modelled as association lists, Python's `json` values
as an inductive `Json` type, and the relevant truthiness / `str()` / `.get`
semantics of Python are modelled explicitly.  External effects (subprocess
discovery, HTTP requests) are passed in as explicit oracle functions.
-/

/-! ## Association lists (model of Python `dict` lookup) -/

section AssocList

variable {α : Type} {β : Type} [DecidableEq α]

/-- Lookup of the first binding of a key in an association list. -/
def alookup (k : α) : List (α × β) → Option β
  | [] => none
  | (k2, v) :: rest => if k2 = k then some v else alookup k rest

/-- Keys of an association list, in order. -/
def keysOf (l : List (α × β)) : List α := l.map Prod.fst

theorem alookup_eq_none_iff (k : α) (l : List (α × β)) :
    alookup k l = none ↔ k ∉ keysOf l := by
  induction l with
  | nil => simp [alookup, keysOf]
  | cons p rest ih =>
    obtain ⟨k2, v⟩ := p
    by_cases h : k2 = k
    · simp [alookup, keysOf, h]
    · simp only [alookup, keysOf, h, if_false, ih, List.map_cons, List.mem_cons]
      tauto

theorem alookup_isSome_of_mem {k : α} {l : List (α × β)} (h : k ∈ keysOf l) :
    ∃ v, alookup k l = some v := by
  cases hv : alookup k l with
  | none => exact absurd ((alookup_eq_none_iff k l).mp hv) (not_not_intro h)
  | some v => exact ⟨v, rfl⟩

theorem mem_of_alookup_isSome {k : α} {l : List (α × β)} {v : β}
    (h : alookup k l = some v) : k ∈ keysOf l := by
  by_contra hmem
  rw [(alookup_eq_none_iff k l).mpr hmem] at h
  exact Option.noConfusion h

end AssocList

/-! ## Python JSON values and Python-semantics helpers -/

/-- Model of a parsed JSON value, as produced by Python's `json` module
(object fields keep insertion order; numbers are modelled as integers, which
covers every value the claims exercise). -/
inductive Json where
  | null
  | bool (b : Bool)
  | num (n : Int)
  | str (s : String)
  | arr (xs : List Json)
  | obj (fields : List (String × Json))

/-- Python truthiness (`bool(x)`) on JSON values: `None`, `False`, `0`, `""`,
`[]` and `\x7b\x7d` are falsy, everything else truthy. -/
def truthy : Json → Bool
  | .null => false
  | .bool b => b
  | .num n => decide (n ≠ 0)
  | .str s => decide (s ≠ "")
  | .arr xs => !xs.isEmpty
  | .obj fs => !fs.isEmpty

/-- Python `repr` of a JSON value (as used by `str` on non-string values).
String escaping corner cases are not modelled. -/
def pyRepr : Json → String
  | .null => "None"
  | .bool b => if b then "True" else "False"
  | .num n => toString n
  | .str s => "\x27" ++ s ++ "\x27"
  | .arr xs => "[" ++ String.intercalate ", " (xs.attach.map fun x => pyRepr x.1) ++ "]"
  | .obj fs =>
      "\x7b" ++
        String.intercalate ", "
          (fs.attach.map fun f => "\x27" ++ f.1.1 ++ "\x27: " ++ pyRepr f.1.2) ++
      "\x7d"
decreasing_by
  · have h := List.sizeOf_lt_of_mem x.2
    simp at h ⊢
    omega
  · obtain ⟨⟨a, b⟩, hf⟩ := f
    have h := List.sizeOf_lt_of_mem hf
    simp at h ⊢
    omega

/-- Python `str.upper()` (ASCII, which covers HTTP method strings). -/
def pyUpper (s : String) : String := String.mk (s.toList.map Char.toUpper)

/-- Python `str()` of a JSON value. -/
def pyStr : Json → String
  | .str s => s
  | j => pyRepr j

/-- Model of a Python `AttributeError` (e.g. calling `.get` on a non-dict). -/
inductive PyErr where
  | attributeError

/-- Model of `value.get(key)` on a JSON value: on a JSON object, the bound
value (with `None`, i.e. `Json.null`, when the key is absent); on anything
else an `AttributeError`, as in Python. -/
def pyGet (j : Json) (k : String) : Except PyErr Json :=
  match j with
  | .obj fs => .ok ((alookup k fs).getD Json.null)
  | _ => .error .attributeError

/-- Model of `value.get(key, default)` on a JSON value. -/
def pyGetD (j : Json) (k : String) (d : Json) : Except PyErr Json :=
  match j with
  | .obj fs => .ok ((alookup k fs).getD d)
  | _ => .error .attributeError

/-! ## Telegram SSE bridge: payload extraction and webhook handler
(`src/mcp_server_telegram_sse.py`) -/

/-- Model of the dictionary built by `extract_text_message`: sender identity,
text content, and the raw update payload.  The `sender` and `text` fields are
arbitrary JSON values, exactly as in the source (no type coercion happens
there beyond the `str()` call on the id fallback). -/
structure InboundEvent where
  sender : Json
  text : Json
  raw : Json

/-- Model of `message = update.get("message") or update.get("edited_message") or \x7b\x7d`
in `extract_text_message`. -/
def messageOf (update : Json) : Except PyErr Json := do
  let m ← pyGet update "message"
  if truthy m then pure m
  else do
    let m2 ← pyGet update "edited_message"
    pure (if truthy m2 then m2 else Json.obj [])

/-- Model of `sender_info = message.get("from") or \x7b\x7d` in
`extract_text_message`. -/
def senderInfoOf (msg : Json) : Except PyErr Json := do
  let si ← pyGet msg "from"
  pure (if truthy si then si else Json.obj [])

/-- Model of the sender chain in `extract_text_message`:
`sender_info.get("username") or sender_info.get("first_name") or str(sender_info.get("id", "unknown"))`. -/
def pickSender (si : Json) : Except PyErr Json := do
  let u ← pyGet si "username"
  if truthy u then pure u
  else do
    let f ← pyGet si "first_name"
    if truthy f then pure f
    else do
      let i ← pyGetD si "id" (Json.str "unknown")
      pure (Json.str (pyStr i))

/-- Model of `extract_text_message(update)`: returns `none` when no truthy
`text` is found, the extracted event otherwise; propagates the
`AttributeError` Python raises when `.get` is called on a non-dict. -/
def extract_text_message (update : Json) : Except PyErr (Option InboundEvent) := do
  let msg ← messageOf update
  let text ← pyGet msg "text"
  if truthy text then do
    let si ← senderInfoOf msg
    let sender ← pickSender si
    pure (some { sender := sender, text := text, raw := update })
  else
    pure none

/-- Outcome of one request to the `/webhook` handler. -/
inductive WebhookReply where
  | okQueued
  | okIgnored
  | clientError
  | serverError

/-- HTTP status of a webhook outcome: 200 for the two `JSONResponse` paths,
400 for the `HTTPException` raised on malformed JSON, 500 for an exception
that escapes the handler (FastAPI turns it into an internal server error). -/
def statusOf : WebhookReply → Nat
  | .okQueued => 200
  | .okIgnored => 200
  | .clientError => 400
  | .serverError => 500

/-- Model of the `telegram_webhook` handler.  The input is the outcome of
`await request.json()` (`Except.error` for a `json.JSONDecodeError`), the
state is the central `event_queue` modelled as a list (oldest first).  The
`subprocess.Popen` side effect and `latest_message` are not part of the
queue-visible behaviour the claims are about. -/
def telegram_webhook (body : Except Unit Json) (queue : List InboundEvent) :
    WebhookReply × List InboundEvent :=
  match body with
  | .error _ => (.clientError, queue)
  | .ok update =>
    match extract_text_message update with
    | .error _ => (.serverError, queue)
    | .ok none => (.okIgnored, queue)
    | .ok (some ev) => (.okQueued, queue ++ [ev])

/-! ## Event broadcast server: small-step transition system

The concurrent behaviour of `broadcast_loop`, `telegram_webhook`'s
`event_queue.put`, and the `sse_events` subscriber streams is modelled as a
small-step transition system.  Suspension points of the source become
interleaving points of the relation; the `clients_lock` is held exactly while
the broadcaster is inside its `async with` fan-out block. -/

/-- State of one SSE subscriber: its bounded channel (`asyncio.Queue(maxsize=10)`),
oldest item first, plus the ghost history of events its generator has yielded. -/
structure SubState where
  chan : List InboundEvent
  received : List InboundEvent

/-- Control state of `broadcast_loop`: waiting on `event_queue.get()` (`idle`),
holding a dequeued message but not yet inside the lock (`taken`), or inside the
`async with clients_lock` block with the snapshot of clients still to serve
(`fanout`). -/
inductive BcastPhase where
  | idle
  | taken (msg : InboundEvent)
  | fanout (msg : InboundEvent) (remaining : List Nat)

/-- Global state of the broadcast bridge: the central unbounded queue, the
subscriber set (an association list keyed by subscriber id — `app.state.clients`),
the broadcaster's control state, the ghost list of all ingested events, and a
fresh-id counter for new subscribers. -/
structure ServerState where
  queue : List InboundEvent
  clients : List (Nat × SubState)
  phase : BcastPhase
  ingested : List InboundEvent
  nextId : Nat

/-- Capacity of one subscriber channel (`asyncio.Queue(maxsize=10)` in
`sse_events`). -/
def chanCapacity : Nat := 10

/-- Length of subscriber `i`'s channel (0 when not subscribed). -/
def chanLen (s : ServerState) (i : Nat) : Nat :=
  match alookup i s.clients with
  | some st => st.chan.length
  | none => 0

/-- Update the subscriber stored under key `i`. -/
def updateAt (i : Nat) (f : SubState → SubState) : List (Nat × SubState) → List (Nat × SubState)
  | [] => []
  | (k, v) :: rest =>
      if k = i then (k, f v) :: updateAt i f rest else (k, v) :: updateAt i f rest

/-- Remove subscriber `i` from the set (`app.state.clients.discard`). -/
def removeClient (i : Nat) : List (Nat × SubState) → List (Nat × SubState)
  | [] => []
  | (k, v) :: rest =>
      if k = i then removeClient i rest else (k, v) :: removeClient i rest

/-- The `clients_lock` is free unless the broadcaster is inside its fan-out
block. -/
def lockFree (s : ServerState) : Prop :=
  match s.phase with
  | .fanout _ _ => False
  | _ => True

/-- One interleaved step of the broadcast bridge.

* `ingest` — `telegram_webhook` performs `event_queue.put(extracted)` (the
  central queue is unbounded, so this is always enabled);
* `take` — `broadcast_loop` returns from `event_queue.get()`;
* `snapshot` — the broadcaster acquires `clients_lock` and materialises
  `list(app.state.clients)`; a Python `set` has no fixed order, so any
  permutation of the member list may be taken;
* `put` — `client_queue.put(message)` for the next snapshot entry; enabled
  only while that channel is below `chanCapacity` (a full channel blocks the
  broadcaster);
* `release` — the fan-out pass is complete: the lock is released and
  `task_done` runs;
* `consume` — a subscriber's `event_generator` returns from
  `client_queue.get()` and yields the event (no lock required);
* `subscribe` — `sse_events` registers a fresh channel under the lock;
* `unsubscribe` — a subscriber's `finally` block discards its channel under
  the lock. -/
inductive SrvStep : ServerState → ServerState → Prop where
  | ingest (s : ServerState) (e : InboundEvent) :
      SrvStep s { s with queue := s.queue ++ [e], ingested := s.ingested ++ [e] }
  | take (s : ServerState) (m : InboundEvent) (q : List InboundEvent)
      (hp : s.phase = .idle) (hq : s.queue = m :: q) :
      SrvStep s { s with queue := q, phase := .taken m }
  | snapshot (s : ServerState) (m : InboundEvent) (rem : List Nat)
      (hp : s.phase = .taken m) (hperm : rem.Perm (keysOf s.clients)) :
      SrvStep s { s with phase := .fanout m rem }
  | put (s : ServerState) (m : InboundEvent) (i : Nat) (rest : List Nat)
      (hp : s.phase = .fanout m (i :: rest)) (hroom : chanLen s i < chanCapacity) :
      SrvStep s { s with
        clients := updateAt i (fun st => { st with chan := st.chan ++ [m] }) s.clients,
        phase := .fanout m rest }
  | release (s : ServerState) (m : InboundEvent) (hp : s.phase = .fanout m []) :
      SrvStep s { s with phase := .idle }
  | consume (s : ServerState) (i : Nat) (st : SubState) (m : InboundEvent)
      (c : List InboundEvent)
      (hl : alookup i s.clients = some st) (hc : st.chan = m :: c) :
      SrvStep s { s with
        clients := updateAt i
          (fun _ => { st with chan := c, received := st.received ++ [m] }) s.clients }
  | subscribe (s : ServerState) (hfree : lockFree s) :
      SrvStep s { s with
        clients := s.clients ++ [(s.nextId, { chan := [], received := [] })],
        nextId := s.nextId + 1 }
  | unsubscribe (s : ServerState) (i : Nat) (hfree : lockFree s) :
      SrvStep s { s with clients := removeClient i s.clients }

/-- Finitely many interleaved steps. -/
def SrvReach : ServerState → ServerState → Prop := Relation.ReflTransGen SrvStep

/-! ### Lemmas about the subscriber-set operations -/

theorem alookup_updateAt_self (i : Nat) (f : SubState → SubState)
    (l : List (Nat × SubState)) :
    alookup i (updateAt i f l) = (alookup i l).map f := by
  induction l with
  | nil => rfl
  | cons p rest ih =>
    obtain ⟨k, v⟩ := p
    by_cases h : k = i
    · subst h
      simp [updateAt, alookup]
    · simp [updateAt, alookup, h, ih]

theorem alookup_updateAt_ne {j i : Nat} (h : j ≠ i) (f : SubState → SubState)
    (l : List (Nat × SubState)) :
    alookup j (updateAt i f l) = alookup j l := by
  induction l with
  | nil => rfl
  | cons p rest ih =>
    obtain ⟨k, v⟩ := p
    by_cases hk : k = i
    · subst hk
      simp [updateAt, alookup, Ne.symm h, ih]
    · simp [updateAt, alookup, hk, ih]

theorem keysOf_updateAt (i : Nat) (f : SubState → SubState)
    (l : List (Nat × SubState)) :
    keysOf (updateAt i f l) = keysOf l := by
  induction l with
  | nil => rfl
  | cons p rest ih =>
    obtain ⟨k, v⟩ := p
    by_cases h : k = i
    · subst h
      simp [updateAt, keysOf] at *
      exact ih
    · simp [updateAt, keysOf, h] at *
      exact ih

theorem alookup_removeClient_self (i : Nat) (l : List (Nat × SubState)) :
    alookup i (removeClient i l) = none := by
  induction l with
  | nil => rfl
  | cons p rest ih =>
    obtain ⟨k, v⟩ := p
    by_cases h : k = i
    · simp [removeClient, h, ih]
    · simp [removeClient, alookup, h, ih]

theorem alookup_removeClient_ne {j i : Nat} (h : j ≠ i) (l : List (Nat × SubState)) :
    alookup j (removeClient i l) = alookup j l := by
  induction l with
  | nil => rfl
  | cons p rest ih =>
    obtain ⟨k, v⟩ := p
    by_cases hk : k = i
    · subst hk
      simp [removeClient, alookup, Ne.symm h, ih]
    · simp [removeClient, alookup, hk, ih]

theorem removeClient_sublist (i : Nat) (l : List (Nat × SubState)) :
    List.Sublist (removeClient i l) l := by
  induction l with
  | nil => simp [removeClient]
  | cons p rest ih =>
    obtain ⟨k, v⟩ := p
    by_cases h : k = i
    · simp only [removeClient, h, if_true]
      exact List.Sublist.cons _ ih
    · simp only [removeClient, h, if_false]
      exact List.Sublist.cons₂ _ ih

theorem keysOf_removeClient_sub {j i : Nat} {l : List (Nat × SubState)}
    (h : j ∈ keysOf (removeClient i l)) : j ∈ keysOf l :=
  (List.Sublist.map Prod.fst (removeClient_sublist i l)).mem h

theorem nodup_keysOf_removeClient {i : Nat} {l : List (Nat × SubState)}
    (h : (keysOf l).Nodup) : (keysOf (removeClient i l)).Nodup :=
  List.Nodup.sublist (List.Sublist.map Prod.fst (removeClient_sublist i l)) h

theorem alookup_append_single {j k : Nat} (h : j ≠ k) (l : List (Nat × SubState))
    (v : SubState) :
    alookup j (l ++ [(k, v)]) = alookup j l := by
  induction l with
  | nil => simp [alookup, Ne.symm h]
  | cons p rest ih =>
    obtain ⟨k2, v2⟩ := p
    by_cases hk : k2 = j <;> simp [alookup, hk, ih]

/-! ### Per-subscriber delivery invariant -/

/-- Events dequeued from the central queue but not yet placed on subscriber
`j`'s channel: the in-flight message while the broadcaster holds it and `j` is
still owed a copy. -/
def pendingFor (s : ServerState) (j : Nat) : List InboundEvent :=
  match s.phase with
  | .idle => []
  | .taken m => [m]
  | .fanout m rem => if j ∈ rem then [m] else []

/-- Invariant tying subscriber `j`'s observations to the ingest history: what
`j` has yielded, plus what sits in its channel, plus the copy in flight to it,
plus the central queue, is exactly the ingest order.  The bookkeeping fields
(`nextId` freshness, key uniqueness, snapshot uniqueness) make the invariant
inductive. -/
structure MInv (j : Nat) (s : ServerState) : Prop where
  jLt : j < s.nextId
  keysLt : ∀ k ∈ keysOf s.clients, k < s.nextId
  keysNd : (keysOf s.clients).Nodup
  remNd : ∀ m rem, s.phase = .fanout m rem → rem.Nodup
  track : ∀ st, alookup j s.clients = some st →
      st.received ++ st.chan ++ pendingFor s j ++ s.queue = s.ingested

theorem MInv_step {j : Nat} {s s2 : ServerState} (inv : MInv j s)
    (h : SrvStep s s2) : MInv j s2 := by
  cases h with
  | ingest e =>
    refine ⟨inv.jLt, inv.keysLt, inv.keysNd, ?_, ?_⟩
    · intro m rem hp
      exact inv.remNd m rem hp
    · intro st hst
      have t := inv.track st hst
      show st.received ++ st.chan ++ pendingFor s j ++ (s.queue ++ [e]) = s.ingested ++ [e]
      rw [← t]
      simp [List.append_assoc]
  | take m q hp hq =>
    refine ⟨inv.jLt, inv.keysLt, inv.keysNd, ?_, ?_⟩
    · intro m2 rem hp2
      exact absurd hp2 (by simp)
    · intro st hst
      have t := inv.track st hst
      rw [hq] at t
      simp only [pendingFor, hp] at t
      show st.received ++ st.chan ++ [m] ++ q = s.ingested
      rw [← t]
      simp
  | snapshot m rem hp hperm =>
    refine ⟨inv.jLt, inv.keysLt, inv.keysNd, ?_, ?_⟩
    · intro m2 rem2 hp2
      injection hp2 with hm hr
      subst hr
      exact (hperm.nodup_iff).mpr inv.keysNd
    · intro st hst
      have t := inv.track st hst
      simp only [pendingFor, hp] at t
      have hmem : j ∈ rem := hperm.mem_iff.mpr (mem_of_alookup_isSome hst)
      show st.received ++ st.chan ++ (if j ∈ rem then [m] else []) ++ s.queue = s.ingested
      rw [if_pos hmem]
      exact t
  | put m i rest hp hroom =>
    have hnd : (i :: rest).Nodup := inv.remNd m (i :: rest) hp
    refine ⟨inv.jLt, ?_, ?_, ?_, ?_⟩
    · intro k hk
      exact inv.keysLt k (by rwa [keysOf_updateAt] at hk)
    · rw [keysOf_updateAt]
      exact inv.keysNd
    · intro m2 rem2 hp2
      injection hp2 with hm hr
      subst hr
      exact List.Nodup.of_cons hnd
    · intro st2 hst2
      by_cases hj : j = i
      · subst hj
        rw [alookup_updateAt_self] at hst2
        cases hl : alookup j s.clients with
        | none => rw [hl] at hst2; exact Option.noConfusion hst2
        | some st =>
          rw [hl] at hst2
          have hst2v : st2 = { st with chan := st.chan ++ [m] } := by
            simpa using hst2.symm
          subst hst2v
          have t := inv.track st hl
          simp only [pendingFor, hp, List.mem_cons, true_or, if_pos] at t
          have hnotin : j ∉ rest := by
            intro hmem
            exact (List.nodup_cons.mp hnd).1 hmem
          show st.received ++ (st.chan ++ [m]) ++ (if j ∈ rest then [m] else []) ++ s.queue
              = s.ingested
          rw [if_neg hnotin, ← t]
          simp
      · rw [alookup_updateAt_ne hj] at hst2
        have t := inv.track st2 hst2
        simp only [pendingFor, hp] at t
        have hiff : j ∈ (i :: rest) ↔ j ∈ rest := by
          simp [List.mem_cons, hj]
        show st2.received ++ st2.chan ++ (if j ∈ rest then [m] else []) ++ s.queue
            = s.ingested
        by_cases hmem : j ∈ rest
        · rw [if_pos hmem]
          rw [if_pos (hiff.mpr hmem)] at t
          exact t
        · rw [if_neg hmem]
          rw [if_neg (fun hc => hmem (hiff.mp hc))] at t
          exact t
  | release m hp =>
    refine ⟨inv.jLt, inv.keysLt, inv.keysNd, ?_, ?_⟩
    · intro m2 rem2 hp2
      exact absurd hp2 (by simp)
    · intro st hst
      have t := inv.track st hst
      simp only [pendingFor, hp, List.not_mem_nil, if_false] at t
      show st.received ++ st.chan ++ [] ++ s.queue = s.ingested
      exact t
  | consume i st m c hl hc =>
    refine ⟨inv.jLt, ?_, ?_, ?_, ?_⟩
    · intro k hk
      exact inv.keysLt k (by rwa [keysOf_updateAt] at hk)
    · rw [keysOf_updateAt]
      exact inv.keysNd
    · intro m2 rem2 hp2
      exact inv.remNd m2 rem2 hp2
    · intro st2 hst2
      by_cases hj : j = i
      · subst hj
        rw [alookup_updateAt_self, hl] at hst2
        have hst2v : st2 = { st with chan := c, received := st.received ++ [m] } := by
          simpa using hst2.symm
        subst hst2v
        have t := inv.track st hl
        rw [hc] at t
        show (st.received ++ [m]) ++ c ++ pendingFor s j ++ s.queue = s.ingested
        rw [← t]
        simp
      · rw [alookup_updateAt_ne hj] at hst2
        exact inv.track st2 hst2
  | subscribe hfree =>
    refine ⟨Nat.lt_succ_of_lt inv.jLt, ?_, ?_, ?_, ?_⟩
    · intro k hk
      simp only [keysOf, List.map_append, List.map_cons, List.map_nil,
        List.mem_append, List.mem_cons, List.not_mem_nil, or_false] at hk
      rcases hk with hk | hk
      · exact Nat.lt_succ_of_lt (inv.keysLt k hk)
      · subst hk
        exact Nat.lt_succ_self _
    · have hfresh : s.nextId ∉ keysOf s.clients := fun hmem =>
        Nat.lt_irrefl _ (inv.keysLt _ hmem)
      simp only [keysOf, List.map_append, List.map_cons, List.map_nil]
      exact List.Nodup.append inv.keysNd (List.nodup_singleton _)
        (by simpa [List.disjoint_singleton, keysOf] using hfresh)
    · intro m rem hp
      have hp2 : s.phase = BcastPhase.fanout m rem := hp
      have hc : lockFree s := hfree
      simp [lockFree, hp2] at hc
    · intro st hst
      have hne : j ≠ s.nextId := Nat.ne_of_lt inv.jLt
      rw [alookup_append_single hne] at hst
      exact inv.track st hst
  | unsubscribe i hfree =>
    refine ⟨inv.jLt, ?_, ?_, ?_, ?_⟩
    · intro k hk
      exact inv.keysLt k (keysOf_removeClient_sub hk)
    · exact nodup_keysOf_removeClient inv.keysNd
    · intro m rem hp
      exact inv.remNd m rem hp
    · intro st hst
      by_cases hj : j = i
      · subst hj
        rw [alookup_removeClient_self] at hst
        exact Option.noConfusion hst
      · rw [alookup_removeClient_ne hj] at hst
        exact inv.track st hst

theorem MInv_reach {j : Nat} {s s2 : ServerState} (inv : MInv j s)
    (h : SrvReach s s2) : MInv j s2 := by
  induction h with
  | refl => exact inv
  | tail hsteps hstep ih => exact MInv_step ih hstep

/-! ### Disconnected subscribers are never referenced again -/

/-- After de-registration, subscriber `q` is absent from the set, its id is
stale (below the fresh-id counter), and no active fan-out snapshot mentions
it. -/
def NoRef (q : Nat) (s : ServerState) : Prop :=
  alookup q s.clients = none ∧ q < s.nextId ∧
    ∀ m rem, s.phase = .fanout m rem → q ∉ rem

theorem alookup_updateAt_none {q i : Nat} {l : List (Nat × SubState)}
    (h : alookup q l = none) (f : SubState → SubState) :
    alookup q (updateAt i f l) = none := by
  by_cases hq : q = i
  · subst hq
    rw [alookup_updateAt_self, h]
    rfl
  · rwa [alookup_updateAt_ne hq]

theorem alookup_removeClient_none {q i : Nat} {l : List (Nat × SubState)}
    (h : alookup q l = none) :
    alookup q (removeClient i l) = none := by
  by_cases hq : q = i
  · subst hq
    exact alookup_removeClient_self q l
  · rwa [alookup_removeClient_ne hq]

theorem NoRef_step {q : Nat} {s s2 : ServerState} (inv : NoRef q s)
    (h : SrvStep s s2) : NoRef q s2 := by
  obtain ⟨habs, hlt, hrem⟩ := inv
  cases h with
  | ingest e => exact ⟨habs, hlt, hrem⟩
  | take m qu hp hq => exact ⟨habs, hlt, by intro m2 rem2 hp2; exact absurd hp2 (by simp)⟩
  | snapshot m rem hp hperm =>
    refine ⟨habs, hlt, ?_⟩
    intro m2 rem2 hp2
    injection hp2 with hm hr
    subst hr
    intro hmem
    have : q ∈ keysOf s.clients := hperm.mem_iff.mp hmem
    exact absurd ((alookup_eq_none_iff q s.clients).mp habs) (not_not_intro this)
  | put m i rest hp hroom =>
    refine ⟨alookup_updateAt_none habs _, hlt, ?_⟩
    intro m2 rem2 hp2
    injection hp2 with hm hr
    subst hr
    have hold := hrem m (i :: rest) hp
    intro hmem
    exact hold (List.mem_cons_of_mem i hmem)
  | release m hp => exact ⟨habs, hlt, by intro m2 rem2 hp2; exact absurd hp2 (by simp)⟩
  | consume i st m c hl hc =>
    refine ⟨alookup_updateAt_none habs _, hlt, ?_⟩
    intro m2 rem2 hp2
    exact hrem m2 rem2 hp2
  | subscribe hfree =>
    refine ⟨?_, Nat.lt_succ_of_lt hlt, ?_⟩
    · rw [alookup_append_single (Nat.ne_of_lt hlt)]
      exact habs
    · intro m2 rem2 hp2
      exact hrem m2 rem2 hp2
  | unsubscribe i hfree =>
    refine ⟨alookup_removeClient_none habs, hlt, ?_⟩
    intro m2 rem2 hp2
    exact hrem m2 rem2 hp2

theorem NoRef_reach {q : Nat} {s s2 : ServerState} (inv : NoRef q s)
    (h : SrvReach s s2) : NoRef q s2 := by
  induction h with
  | refl => exact inv
  | tail hsteps hstep ih => exact NoRef_step ih hstep

/-- Exit reasons of the `event_generator` stream in `sse_events`: the
`while True` body either is cancelled (`asyncio.CancelledError`, re-raised) or
fails with another exception; there is no normal return. -/
inductive StreamExit where
  | cancelled
  | error

/-- Model of the `finally:` block of `event_generator`: on every exit path the
generator acquires `clients_lock` and runs `app.state.clients.discard(client_queue)`.
The match on the exit reason mirrors the `except asyncio.CancelledError: raise`
/ `finally:` structure of the source: both paths run the same discard. -/
def event_generator_cleanup (r : StreamExit) (i : Nat) (s : ServerState) : ServerState :=
  match r with
  | .cancelled => { s with clients := removeClient i s.clients }
  | .error => { s with clients := removeClient i s.clients }

/-! ### Claims about the broadcast server -/

/-- C4: when the broadcast loop is delivering to a subscriber channel that
holds its full capacity of 10 undelivered events, it is blocked while holding
the subscriber-set lock: no step of the system delivers an event to any
subscriber (no channel grows) and the broadcaster's control state cannot
change, until the full channel has room — as soon as it does, the delivery
step is enabled again.  One stalled subscriber therefore delays delivery to
every other subscriber. -/
theorem c4_backpressure_blocks_all (s : ServerState) (m : InboundEvent) (i : Nat)
    (rest : List Nat) (hp : s.phase = .fanout m (i :: rest)) :
    (chanLen s i = chanCapacity →
      ¬ lockFree s ∧
      ∀ s2, SrvStep s s2 → s2.phase = s.phase ∧ ∀ j, chanLen s2 j ≤ chanLen s j) ∧
    (chanLen s i < chanCapacity →
      SrvStep s { s with
        clients := updateAt i (fun st => { st with chan := st.chan ++ [m] }) s.clients,
        phase := .fanout m rest }) := by
  constructor
  · intro hfull
    constructor
    · simp [lockFree, hp]
    · intro s2 hstep
      cases hstep with
      | ingest e => exact ⟨rfl, fun j => Nat.le_refl _⟩
      | take m2 q hp2 hq2 => rw [hp] at hp2; exact absurd hp2 (by simp)
      | snapshot m2 rem hp2 hperm => rw [hp] at hp2; exact absurd hp2 (by simp)
      | put m2 i2 rest2 hp2 hroom =>
        rw [hp] at hp2
        injection hp2 with hm hr
        injection hr with hi hrest
        subst hi
        rw [hfull] at hroom
        exact absurd hroom (Nat.lt_irrefl _)
      | release m2 hp2 => rw [hp] at hp2; injection hp2 with hm hr; exact absurd hr (by simp)
      | consume i2 st m2 c hl hc =>
        refine ⟨rfl, ?_⟩
        intro j
        show chanLen { s with
          clients := updateAt i2 (fun _ =>
            { st with chan := c, received := st.received ++ [m2] }) s.clients } j
            ≤ chanLen s j
        by_cases hj : j = i2
        · subst hj
          simp only [chanLen, alookup_updateAt_self, hl]
          simp [hc]
        · simp only [chanLen, alookup_updateAt_ne hj]
          exact Nat.le_refl _
      | subscribe hfree => simp [lockFree, hp] at hfree
      | unsubscribe i2 hfree => simp [lockFree, hp] at hfree
  · intro hroom
    exact SrvStep.put s m i rest hp hroom

/-- C4 witness: a concrete blocked configuration — one subscriber whose
channel holds 10 undelivered events while the broadcaster is mid fan-out —
satisfies the hypotheses, so the lock is held and no step grows any
channel. -/
theorem c4_backpressure_blocks_all_witness :
    let ev : InboundEvent := { sender := Json.str "a", text := Json.str "hi", raw := Json.null }
    let full : SubState := { chan := List.replicate 10 ev, received := [] }
    let s : ServerState :=
      { queue := [], clients := [(0, full)], phase := .fanout ev [0],
        ingested := List.replicate 11 ev, nextId := 1 }
    ¬ lockFree s ∧ ∀ s2, SrvStep s s2 → s2.phase = s.phase ∧ ∀ j, chanLen s2 j ≤ chanLen s j := by
  intro ev full s
  exact (c4_backpressure_blocks_all s ev 0 [] rfl).1
    (by simp [chanLen, s, full, alookup, chanCapacity])

/-- C5: for two subscribers registered (with empty channels and histories)
before a set of ingests, every execution keeps each subscriber's yielded
history a prefix of the ingest order — events are observed in exactly the
order they were ingested — and in any drained state (broadcaster idle,
central queue empty, both channels empty) both subscribers have received
every ingested event, in the identical order. -/
theorem c5_subscriber_order (s0 s : ServerState) (a b : Nat)
    (ha : alookup a s0.clients = some { chan := [], received := [] })
    (hb : alookup b s0.clients = some { chan := [], received := [] })
    (haLt : a < s0.nextId) (hbLt : b < s0.nextId)
    (hkeys : ∀ k ∈ keysOf s0.clients, k < s0.nextId)
    (hnd : (keysOf s0.clients).Nodup)
    (hphase : s0.phase = .idle) (hq : s0.queue = []) (hing : s0.ingested = [])
    (hreach : SrvReach s0 s) :
    (∀ stA, alookup a s.clients = some stA → ∃ t, stA.received ++ t = s.ingested) ∧
    (∀ stB, alookup b s.clients = some stB → ∃ t, stB.received ++ t = s.ingested) ∧
    (s.phase = .idle → s.queue = [] →
      ∀ stA stB, alookup a s.clients = some stA → alookup b s.clients = some stB →
        stA.chan = [] → stB.chan = [] →
        stA.received = s.ingested ∧ stB.received = s.ingested) := by
  have hbase : ∀ j : Nat, j < s0.nextId →
      alookup j s0.clients = some { chan := [], received := [] } → MInv j s0 := by
    intro j hjLt hj
    refine ⟨hjLt, hkeys, hnd, ?_, ?_⟩
    · intro m rem hp
      rw [hphase] at hp
      exact absurd hp (by simp)
    · intro st hst
      rw [hj] at hst
      injection hst with hst
      subst hst
      simp [pendingFor, hphase, hq, hing]
  have invA : MInv a s := MInv_reach (hbase a haLt ha) hreach
  have invB : MInv b s := MInv_reach (hbase b hbLt hb) hreach
  refine ⟨?_, ?_, ?_⟩
  · intro stA hstA
    exact ⟨stA.chan ++ pendingFor s a ++ s.queue, by
      have t := invA.track stA hstA
      rw [← t]
      simp [List.append_assoc]⟩
  · intro stB hstB
    exact ⟨stB.chan ++ pendingFor s b ++ s.queue, by
      have t := invB.track stB hstB
      rw [← t]
      simp [List.append_assoc]⟩
  · intro hphase2 hq2 stA stB hstA hstB hcA hcB
    have tA := invA.track stA hstA
    have tB := invB.track stB hstB
    simp only [pendingFor, hphase2, hq2, hcA, hcB, List.append_nil] at tA tB
    exact ⟨tA, tB⟩

/-- Concrete broadcast state with two freshly registered subscribers. -/
def twoSubsInit : ServerState :=
  { queue := [], clients := [(0, { chan := [], received := [] }),
                             (1, { chan := [], received := [] })],
    phase := .idle, ingested := [], nextId := 2 }

/-- C5 witness: the concrete two-subscriber initial state satisfies every
hypothesis, with the empty execution. -/
theorem c5_subscriber_order_witness :
    (∀ stA, alookup 0 twoSubsInit.clients = some stA →
        ∃ t, stA.received ++ t = twoSubsInit.ingested) ∧
    (∀ stB, alookup 1 twoSubsInit.clients = some stB →
        ∃ t, stB.received ++ t = twoSubsInit.ingested) ∧
    (twoSubsInit.phase = .idle → twoSubsInit.queue = [] →
      ∀ stA stB, alookup 0 twoSubsInit.clients = some stA →
        alookup 1 twoSubsInit.clients = some stB →
        stA.chan = [] → stB.chan = [] →
        stA.received = twoSubsInit.ingested ∧ stB.received = twoSubsInit.ingested) :=
  c5_subscriber_order twoSubsInit twoSubsInit 0 1 rfl rfl (by decide) (by decide)
    (by intro k hk; simp [twoSubsInit, keysOf] at hk ⊢; omega)
    (by simp [twoSubsInit, keysOf]) rfl rfl rfl Relation.ReflTransGen.refl

/-- C8: on every exit path of a subscriber's stream (cancellation or error),
the `finally` cleanup removes its channel from the shared subscriber set —
the cleanup is exactly the machine's lock-guarded unsubscribe step — and from
then on the subscriber never reappears: in every subsequently reachable state
it is absent from the set and no fan-out snapshot references its channel. -/
theorem c8_unsubscribe_removal (r : StreamExit) (i : Nat) (s : ServerState)
    (hfree : lockFree s) (hi : i < s.nextId) :
    alookup i (event_generator_cleanup r i s).clients = none ∧
    SrvStep s (event_generator_cleanup r i s) ∧
    ∀ s2, SrvReach (event_generator_cleanup r i s) s2 →
      alookup i s2.clients = none ∧ ∀ m rem, s2.phase = .fanout m rem → i ∉ rem := by
  have hred : event_generator_cleanup r i s
      = { s with clients := removeClient i s.clients } := by
    cases r <;> rfl
  rw [hred]
  refine ⟨alookup_removeClient_self i s.clients, SrvStep.unsubscribe s i hfree, ?_⟩
  intro s2 hreach
  have hstart : NoRef i { s with clients := removeClient i s.clients } := by
    refine ⟨alookup_removeClient_self i s.clients, hi, ?_⟩
    intro m rem hp
    have hp2 : s.phase = BcastPhase.fanout m rem := hp
    simp [lockFree, hp2] at hfree
  obtain ⟨habs, hlt, hrem⟩ := NoRef_reach hstart hreach
  exact ⟨habs, hrem⟩

/-- C8 witness: a concrete one-subscriber idle state; after the cancellation
exit path the subscriber is gone and stays unreferenced. -/
theorem c8_unsubscribe_removal_witness :
    let s : ServerState :=
      { queue := [], clients := [(0, { chan := [], received := [] })],
        phase := .idle, ingested := [], nextId := 1 }
    alookup 0 (event_generator_cleanup .cancelled 0 s).clients = none ∧
    SrvStep s (event_generator_cleanup .cancelled 0 s) ∧
    ∀ s2, SrvReach (event_generator_cleanup .cancelled 0 s) s2 →
      alookup 0 s2.clients = none ∧ ∀ m rem, s2.phase = .fanout m rem → 0 ∉ rem := by
  intro s
  exact c8_unsubscribe_removal .cancelled 0 s trivial (by decide)

/-- Demonstration event used by the concrete traces. -/
def evDemo : InboundEvent :=
  { sender := Json.str "alice", text := Json.str "hi", raw := Json.null }

/-- Sanity check that the transition system is live: from the two-subscriber
initial state, one ingest can be taken, fanned out to both subscribers, and
consumed by both, reaching a drained state in which both histories equal the
ingest order. -/
theorem broadcast_machine_live :
    SrvReach twoSubsInit
      { queue := [], clients := [(0, { chan := [], received := [evDemo] }),
                                 (1, { chan := [], received := [evDemo] })],
        phase := .idle, ingested := [evDemo], nextId := 2 } := by
  have t0 : SrvReach twoSubsInit twoSubsInit := Relation.ReflTransGen.refl
  have t1 := Relation.ReflTransGen.tail t0 (SrvStep.ingest twoSubsInit evDemo)
  have t2 := Relation.ReflTransGen.tail t1 (SrvStep.take _ evDemo [] rfl rfl)
  have t3 := Relation.ReflTransGen.tail t2
    (SrvStep.snapshot _ evDemo [0, 1] rfl (List.Perm.refl _))
  have t4 := Relation.ReflTransGen.tail t3 (SrvStep.put _ evDemo 0 [1] rfl (by decide))
  have t5 := Relation.ReflTransGen.tail t4 (SrvStep.put _ evDemo 1 [] rfl (by decide))
  have t6 := Relation.ReflTransGen.tail t5 (SrvStep.release _ evDemo rfl)
  have t7 := Relation.ReflTransGen.tail t6
    (SrvStep.consume _ 0 { chan := [evDemo], received := [] } evDemo [] rfl rfl)
  have t8 := Relation.ReflTransGen.tail t7
    (SrvStep.consume _ 1 { chan := [evDemo], received := [] } evDemo [] rfl rfl)
  exact t8

/-! ### Claims about the webhook handler and sender extraction -/

/-- C6 counterexample: the JSON body `[]` is valid JSON from which no text
field can be extracted, yet the handler does not return success — `update.get`
raises `AttributeError` on a non-dict, which escapes the handler (\x35\x30\x30),
with nothing queued. -/
theorem c6_counterexample :
    telegram_webhook (Except.ok (Json.arr [])) [] = (WebhookReply.serverError, []) ∧
    statusOf WebhookReply.serverError ≠ 200 := by
  exact ⟨rfl, by decide⟩

/-- C6 (amended): if the body is valid JSON on which text extraction completes
without a type error and finds no truthy text, the handler returns success
(200, the ignored response) and the queue is unchanged; malformed JSON yields
a client error (400) and the queue is unchanged. -/
theorem c6_amended_webhook :
    (∀ (u : Json) (q : List InboundEvent), extract_text_message u = .ok none →
      telegram_webhook (.ok u) q = (.okIgnored, q) ∧ statusOf .okIgnored = 200) ∧
    (∀ q : List InboundEvent,
      telegram_webhook (.error ()) q = (.clientError, q) ∧ statusOf .clientError = 400) := by
  constructor
  · intro u q h
    exact ⟨by simp [telegram_webhook, h], rfl⟩
  · intro q
    exact ⟨rfl, rfl⟩

/-- C6 amended witness: the empty JSON object has no extractable text, is
accepted and ignored without queueing; a malformed body yields 400 without
queueing. -/
theorem c6_amended_webhook_witness :
    (extract_text_message (Json.obj []) = .ok none ∧
      telegram_webhook (.ok (Json.obj [])) [] = (.okIgnored, []) ∧
      statusOf .okIgnored = 200) ∧
    (telegram_webhook (.error ()) [] = (.clientError, []) ∧ statusOf .clientError = 400) :=
  ⟨⟨rfl, (c6_amended_webhook.1 (Json.obj []) [] rfl).1,
    (c6_amended_webhook.1 (Json.obj []) [] rfl).2⟩,
   c6_amended_webhook.2 []⟩

/-- Telegram update whose sender has an empty (present, falsy) username and a
first name. -/
def cexUpdate9 : Json :=
  Json.obj [("message", Json.obj
    [("text", Json.str "hi"),
     ("from", Json.obj [("username", Json.str ""), ("first_name", Json.str "Bob")])])]

/-- C9 counterexample: the username field is present (bound to the empty
string), yet the recorded sender is the first name, not the username — the
source tests Python truthiness, not presence. -/
theorem c9_counterexample :
    extract_text_message cexUpdate9
      = .ok (some { sender := Json.str "Bob", text := Json.str "hi", raw := cexUpdate9 }) ∧
    pyGet (Json.obj [("username", Json.str ""), ("first_name", Json.str "Bob")])
        "username" = .ok (Json.str "") ∧
    Json.str "Bob" ≠ Json.str "" := by
  refine ⟨rfl, rfl, ?_⟩
  intro h
  injection h with h
  exact absurd h (by decide)

/-- Field access used by the spec-side sender description: the value bound in
a JSON object (`Json.null` when absent or when the value is not an object). -/
def jfield (j : Json) (k : String) : Json :=
  match j with
  | .obj fs => (alookup k fs).getD Json.null
  | _ => Json.null

/-- Field access with an explicit default. -/
def jfieldD (j : Json) (k : String) (d : Json) : Json :=
  match j with
  | .obj fs => (alookup k fs).getD d
  | _ => d

/-- Sender precedence as the amended C9 claim words it: the username when it
is a non-empty (truthy) value, else the first name when truthy, else the id
field rendered as a string when present, else the literal "unknown". -/
def senderSpec (si : Json) : Json :=
  if truthy (jfield si "username") then jfield si "username"
  else if truthy (jfield si "first_name") then jfield si "first_name"
  else Json.str (pyStr (jfieldD si "id" (Json.str "unknown")))

theorem pickSender_eq_senderSpec {si : Json} {s : Json}
    (h : pickSender si = .ok s) : s = senderSpec si := by
  cases si with
  | obj fs =>
    simp only [pickSender, pyGet, pyGetD, bind, Except.bind, pure, Except.pure] at h
    by_cases hu : truthy ((alookup "username" fs).getD Json.null)
    · rw [if_pos hu] at h
      injection h with h
      subst h
      simp [senderSpec, jfield, hu]
    · rw [if_neg hu] at h
      by_cases hf : truthy ((alookup "first_name" fs).getD Json.null)
      · rw [if_pos hf] at h
        injection h with h
        subst h
        simp [senderSpec, jfield, hu, hf]
      · rw [if_neg hf] at h
        injection h with h
        subst h
        simp [senderSpec, jfield, jfieldD, hu, hf]
  | null => exact absurd h (by simp [pickSender, pyGet, bind, Except.bind])
  | bool b => exact absurd h (by simp [pickSender, pyGet, bind, Except.bind])
  | num n => exact absurd h (by simp [pickSender, pyGet, bind, Except.bind])
  | str s2 => exact absurd h (by simp [pickSender, pyGet, bind, Except.bind])
  | arr xs => exact absurd h (by simp [pickSender, pyGet, bind, Except.bind])

/-- C9 (amended): the sender recorded in the extracted event follows the
precedence username-if-truthy, else first-name-if-truthy, else the id field
rendered as a string when present, else "unknown" — presence alone is not
enough, the value must be non-empty. -/
theorem c9_amended_sender (update msg si : Json) (ev : InboundEvent)
    (h1 : messageOf update = .ok msg)
    (h2 : senderInfoOf msg = .ok si)
    (h3 : extract_text_message update = .ok (some ev)) :
    ev.sender = senderSpec si := by
  unfold extract_text_message at h3
  rw [h1] at h3
  simp only [bind, Except.bind] at h3
  cases ht : pyGet msg "text" with
  | error e =>
    rw [ht] at h3
    exact absurd h3 (by simp)
  | ok text =>
    rw [ht] at h3
    dsimp only [] at h3
    by_cases htr : truthy text = true
    · rw [if_pos htr, h2] at h3
      dsimp only [] at h3
      cases hs : pickSender si with
      | error e =>
        rw [hs] at h3
        simp at h3
      | ok sender =>
        rw [hs] at h3
        dsimp only [pure, Except.pure] at h3
        injection h3 with h3
        injection h3 with h3
        subst h3
        exact pickSender_eq_senderSpec hs
    · rw [if_neg htr] at h3
      simp [pure, Except.pure] at h3

/-- C9 amended witness: a sender with empty username and first name "Bob"
yields sender "Bob", matching the amended precedence. -/
theorem c9_amended_sender_witness :
    extract_text_message cexUpdate9
      = .ok (some { sender := Json.str "Bob", text := Json.str "hi", raw := cexUpdate9 }) ∧
    Json.str "Bob" = senderSpec
      (Json.obj [("username", Json.str ""), ("first_name", Json.str "Bob")]) :=
  ⟨rfl, c9_amended_sender cexUpdate9
    (Json.obj [("text", Json.str "hi"),
      ("from", Json.obj [("username", Json.str ""), ("first_name", Json.str "Bob")])])
    (Json.obj [("username", Json.str ""), ("first_name", Json.str "Bob")])
    { sender := Json.str "Bob", text := Json.str "hi", raw := cexUpdate9 }
    rfl rfl rfl⟩

/-! ## MultiMCP tool registry (`src/core/session.py`) -/

/-- Tool object stored in a registry entry: the `mcp` library's `Tool` for
stdio discovery, or the `SimpleNamespace(name, description, parameters)`
built for HTTP tools. -/
structure ToolObj where
  name : String
  description : String
  parameters : Json

/-- One entry of an HTTP backend's static `tools` list
(`\x7b name, endpoint, method?, description?, parameters? \x7d`); every field
read with `.get`, so all are optional. -/
structure ToolDef where
  name : Option String
  endpoint : Option String
  method : Option String
  description : Option String
  parameters : Option Json

/-- One backend configuration record, as read from `server_configs`.  A
`script` key makes it a stdio backend, a `host` key an HTTP backend; absence
is modelled as `none`. -/
structure BackendConfig where
  script : Option String
  cwd : Option String
  host : Option String
  name : Option String
  description : Option String
  tools : Option (List ToolDef)

/-- One value of `self.tool_map`: the dict
`\x7b"config": \x7b**config, "transport": t\x7d, "tool": tool, "transport": t\x7d`,
plus `"endpoint"`/`"method"` for HTTP tools. -/
structure RegEntry where
  config : BackendConfig
  configTransport : String
  tool : ToolObj
  transport : String
  endpoint : Option String
  method : Option String

/-- The `tool_map` dictionary: tool name to entry, insertion-ordered. -/
abbrev ToolMap := List (String × RegEntry)

/-- Python dict assignment `m[k] = v`: replaces an existing binding in place,
otherwise appends. -/
def dictInsert (k : String) (v : RegEntry) : ToolMap → ToolMap
  | [] => [(k, v)]
  | (k2, v2) :: rest =>
      if k2 = k then (k, v) :: rest else (k2, v2) :: dictInsert k v rest

/-- Python falsiness of an optional string (`not x` for a missing or empty
value). -/
def optFalsy (o : Option String) : Bool :=
  match o with
  | none => true
  | some s => s == ""

/-- Entry registered by `_register_stdio_server` for one discovered tool. -/
def stdioEntry (config : BackendConfig) (t : ToolObj) : RegEntry :=
  { config := config, configTransport := "stdio", tool := t,
    transport := "stdio", endpoint := none, method := none }

/-- Model of `_register_stdio_server`: one discovery round-trip against the
subprocess, represented by the `discover` oracle; on success every returned
tool is written into the map in order, and any exception (spawn, handshake,
protocol or session error — the two nested `try`/`except` blocks) leaves the
map untouched. -/
def register_stdio_server (discover : BackendConfig → Except String (List ToolObj))
    (config : BackendConfig) (m : ToolMap) : ToolMap :=
  match discover config with
  | .ok tools => tools.foldl (fun acc t => dictInsert t.name (stdioEntry config t) acc) m
  | .error _ => m

/-- The `SimpleNamespace` tool object built by `_register_http_server`:
`description = tool_def.get("description") or config.get("description", "")`,
`parameters = tool_def.get("parameters") or \x7b\x7d`. -/
def httpToolObj (config : BackendConfig) (td : ToolDef) : ToolObj :=
  { name := td.name.getD "",
    description :=
      if optFalsy td.description then config.description.getD ""
      else td.description.getD "",
    parameters :=
      match td.parameters with
      | some p => if truthy p then p else Json.obj []
      | none => Json.obj [] }

/-- Entry registered by `_register_http_server` for one valid tool definition:
method defaults to POST (`(tool_def.get("method") or "POST").upper()`). -/
def httpEntry (config : BackendConfig) (td : ToolDef) : RegEntry :=
  { config := config, configTransport := "http", tool := httpToolObj config td,
    transport := "http", endpoint := td.endpoint,
    method := some (pyUpper (if optFalsy td.method then "POST" else td.method.getD "")) }

/-- The `tools = config.get("tools") or []` list of an HTTP backend config
(a missing or empty list becomes the empty list). -/
def toolsOf (config : BackendConfig) : List ToolDef :=
  match config.tools with
  | some ts => ts
  | none => []

/-- Model of `_register_http_server`: an empty or missing `tools` list is
skipped entirely; a tool definition with a falsy name or endpoint is skipped
with a warning; every other definition is written into the map in order. -/
def register_http_server (config : BackendConfig) (m : ToolMap) : ToolMap :=
  if (toolsOf config).isEmpty then m
  else (toolsOf config).foldl (fun acc td =>
    if optFalsy td.name || optFalsy td.endpoint then acc
    else dictInsert (td.name.getD "") (httpEntry config td) acc) m

/-- Dispatch of `initialize` on one config: `"script" in config` selects the
stdio path, else `"host" in config` the HTTP path, else the config is skipped
with a warning. -/
def registerBackend (discover : BackendConfig → Except String (List ToolObj))
    (config : BackendConfig) (m : ToolMap) : ToolMap :=
  if config.script.isSome then register_stdio_server discover config m
  else if config.host.isSome then register_http_server config m
  else m

/-- Model of `MultiMCP.initialize`: processes the configs in order, updating
`self.tool_map` in place (the map passed in is the map the instance already
holds — `initialize` never clears it). -/
def initializeRegistry (discover : BackendConfig → Except String (List ToolObj))
    (configs : List BackendConfig) (m : ToolMap) : ToolMap :=
  configs.foldl (fun acc c => registerBackend discover c acc) m

/-! ### Registration as a flat list of insertions -/

/-- The (name, entry) pairs a stdio backend writes, in order; empty when
discovery fails. -/
def stdioPairs (discover : BackendConfig → Except String (List ToolObj))
    (c : BackendConfig) : List (String × RegEntry) :=
  match discover c with
  | .ok tools => tools.map fun t => (t.name, stdioEntry c t)
  | .error _ => []

/-- The (name, entry) pairs an HTTP backend writes, in order; invalid tool
definitions are dropped. -/
def httpPairs (c : BackendConfig) : List (String × RegEntry) :=
  (toolsOf c).filterMap fun td =>
    if optFalsy td.name || optFalsy td.endpoint then none
    else some (td.name.getD "", httpEntry c td)

/-- The pairs any one backend writes. -/
def backendPairs (discover : BackendConfig → Except String (List ToolObj))
    (c : BackendConfig) : List (String × RegEntry) :=
  if c.script.isSome then stdioPairs discover c
  else if c.host.isSome then httpPairs c
  else []

/-- The tool names a backend registers. -/
def registeredNames (discover : BackendConfig → Except String (List ToolObj))
    (c : BackendConfig) : List String :=
  keysOf (backendPairs discover c)

/-- The pairs a whole config sequence writes, in processing order. -/
def configPairs (discover : BackendConfig → Except String (List ToolObj)) :
    List BackendConfig → List (String × RegEntry)
  | [] => []
  | c :: cs => backendPairs discover c ++ configPairs discover cs

/-- Sequential dict insertion of a list of pairs. -/
def insertAll (ps : List (String × RegEntry)) (m : ToolMap) : ToolMap :=
  ps.foldl (fun acc p => dictInsert p.1 p.2 acc) m

/-- Last binding of a name in a pair list (the binding that survives
sequential insertion). -/
def lastVal (n : String) : List (String × RegEntry) → Option RegEntry
  | [] => none
  | (k, v) :: rest =>
      match lastVal n rest with
      | some w => some w
      | none => if k = n then some v else none

theorem alookup_dictInsert_self (k : String) (v : RegEntry) (m : ToolMap) :
    alookup k (dictInsert k v m) = some v := by
  induction m with
  | nil => simp [dictInsert, alookup]
  | cons p rest ih =>
    obtain ⟨k2, v2⟩ := p
    by_cases h : k2 = k
    · simp [dictInsert, alookup, h]
    · simp [dictInsert, alookup, h, ih]

theorem alookup_dictInsert_ne {n k : String} (h : n ≠ k) (v : RegEntry) (m : ToolMap) :
    alookup n (dictInsert k v m) = alookup n m := by
  induction m with
  | nil => simp [dictInsert, alookup, Ne.symm h]
  | cons p rest ih =>
    obtain ⟨k2, v2⟩ := p
    by_cases hk : k2 = k
    · subst hk
      simp [dictInsert, alookup, Ne.symm h]
    · by_cases hn : k2 = n <;> simp [dictInsert, alookup, hk, hn, h, ih]

theorem mem_keysOf_dictInsert {x k : String} {v : RegEntry} {m : ToolMap} :
    x ∈ keysOf (dictInsert k v m) ↔ x = k ∨ x ∈ keysOf m := by
  induction m with
  | nil => simp [dictInsert, keysOf]
  | cons p rest ih =>
    obtain ⟨k2, v2⟩ := p
    by_cases h : k2 = k
    · subst h
      have h1 : keysOf (dictInsert k2 v ((k2, v2) :: rest)) = k2 :: keysOf rest := by
        simp [dictInsert, keysOf]
      rw [h1, List.mem_cons,
        show keysOf ((k2, v2) :: rest) = k2 :: keysOf rest from rfl, List.mem_cons]
      tauto
    · have h1 : keysOf (dictInsert k v ((k2, v2) :: rest))
          = k2 :: keysOf (dictInsert k v rest) := by
        simp [dictInsert, h, keysOf]
      rw [h1, List.mem_cons, ih,
        show keysOf ((k2, v2) :: rest) = k2 :: keysOf rest from rfl, List.mem_cons]
      tauto

theorem nodup_keysOf_dictInsert {k : String} {v : RegEntry} {m : ToolMap}
    (h : (keysOf m).Nodup) : (keysOf (dictInsert k v m)).Nodup := by
  induction m with
  | nil => simp [dictInsert, keysOf]
  | cons p rest ih =>
    obtain ⟨k2, v2⟩ := p
    rw [show keysOf ((k2, v2) :: rest) = k2 :: keysOf rest from rfl, List.nodup_cons] at h
    by_cases hk : k2 = k
    · subst hk
      have h1 : keysOf (dictInsert k2 v ((k2, v2) :: rest)) = k2 :: keysOf rest := by
        simp [dictInsert, keysOf]
      rw [h1, List.nodup_cons]
      exact ⟨h.1, h.2⟩
    · have h1 : keysOf (dictInsert k v ((k2, v2) :: rest))
          = k2 :: keysOf (dictInsert k v rest) := by
        simp [dictInsert, hk, keysOf]
      rw [h1, List.nodup_cons]
      refine ⟨?_, ih h.2⟩
      intro hmem
      rcases mem_keysOf_dictInsert.mp hmem with hx | hx
      · exact hk hx
      · exact h.1 hx

theorem insertAll_cons (p : String × RegEntry) (ps : List (String × RegEntry))
    (m : ToolMap) :
    insertAll (p :: ps) m = insertAll ps (dictInsert p.1 p.2 m) := rfl

theorem alookup_insertAll (n : String) :
    ∀ (ps : List (String × RegEntry)) (m : ToolMap),
    alookup n (insertAll ps m) =
      match lastVal n ps with
      | some v => some v
      | none => alookup n m := by
  intro ps
  induction ps with
  | nil => intro m; rfl
  | cons p rest ih =>
    intro m
    obtain ⟨k, v⟩ := p
    rw [insertAll_cons, ih]
    show (match lastVal n rest with
          | some w => some w
          | none => alookup n (dictInsert k v m)) =
        (match (match lastVal n rest with
                | some w => some w
                | none => if k = n then some v else none) with
          | some w => some w
          | none => alookup n m)
    cases hl : lastVal n rest with
    | some w => rfl
    | none =>
      by_cases hk : k = n
      · subst hk
        simp [alookup_dictInsert_self]
      · rw [if_neg hk]
        simp [alookup_dictInsert_ne (fun hc => hk hc.symm)]

theorem nodup_keysOf_insertAll :
    ∀ (ps : List (String × RegEntry)) (m : ToolMap),
    (keysOf m).Nodup → (keysOf (insertAll ps m)).Nodup := by
  intro ps
  induction ps with
  | nil => intro m h; exact h
  | cons p rest ih =>
    intro m h
    rw [insertAll_cons]
    exact ih _ (nodup_keysOf_dictInsert h)

theorem lastVal_append (n : String) (ps qs : List (String × RegEntry)) :
    lastVal n (ps ++ qs) =
      match lastVal n qs with
      | some w => some w
      | none => lastVal n ps := by
  induction ps with
  | nil =>
    simp only [List.nil_append]
    cases lastVal n qs <;> rfl
  | cons p rest ih =>
    obtain ⟨k, v⟩ := p
    show (match lastVal n (rest ++ qs) with
          | some w => some w
          | none => if k = n then some v else none) =
        (match lastVal n qs with
          | some w => some w
          | none =>
              match lastVal n rest with
              | some w => some w
              | none => if k = n then some v else none)
    rw [ih]
    cases lastVal n qs <;> cases lastVal n rest <;> rfl

theorem lastVal_eq_none_iff (n : String) (ps : List (String × RegEntry)) :
    lastVal n ps = none ↔ n ∉ keysOf ps := by
  induction ps with
  | nil => simp [lastVal, keysOf]
  | cons p rest ih =>
    obtain ⟨k, v⟩ := p
    rw [show keysOf ((k, v) :: rest) = k :: keysOf rest from rfl]
    show (match lastVal n rest with
          | some w => some w
          | none => if k = n then some v else none) = none ↔ n ∉ k :: keysOf rest
    cases hl : lastVal n rest with
    | some w =>
      constructor
      · intro hc
        exact absurd hc (by simp)
      · intro hc
        exfalso
        apply hc
        apply List.mem_cons_of_mem
        by_contra h2
        rw [ih.mpr h2] at hl
        exact Option.noConfusion hl
    | none =>
      rw [ih] at hl
      by_cases hk : k = n
      · subst hk
        simp
      · rw [if_neg hk]
        constructor
        · intro _ hc
          rcases List.mem_cons.mp hc with hc | hc
          · exact hk hc.symm
          · exact hl hc
        · intro _
          rfl

theorem insertAll_append (ps qs : List (String × RegEntry)) (m : ToolMap) :
    insertAll (ps ++ qs) m = insertAll qs (insertAll ps m) := by
  simp [insertAll, List.foldl_append]

theorem register_stdio_eq (d : BackendConfig → Except String (List ToolObj))
    (c : BackendConfig) (m : ToolMap) :
    register_stdio_server d c m = insertAll (stdioPairs d c) m := by
  unfold register_stdio_server stdioPairs
  cases d c with
  | ok tools => simp [insertAll, List.foldl_map]
  | error e => rfl

theorem http_fold_eq (c : BackendConfig) :
    ∀ (tds : List ToolDef) (m : ToolMap),
    tds.foldl (fun acc td =>
      if optFalsy td.name || optFalsy td.endpoint then acc
      else dictInsert (td.name.getD "") (httpEntry c td) acc) m
    = insertAll (tds.filterMap fun td =>
        if optFalsy td.name || optFalsy td.endpoint then none
        else some (td.name.getD "", httpEntry c td)) m := by
  intro tds
  induction tds with
  | nil => intro m; rfl
  | cons td rest ih =>
    intro m
    simp only [List.foldl_cons, List.filterMap_cons]
    by_cases h : (optFalsy td.name || optFalsy td.endpoint) = true
    · rw [if_pos h, if_pos h]
      exact ih m
    · rw [if_neg h, if_neg h]
      exact ih (dictInsert (td.name.getD "") (httpEntry c td) m)

theorem register_http_eq (c : BackendConfig) (m : ToolMap) :
    register_http_server c m = insertAll (httpPairs c) m := by
  unfold register_http_server httpPairs
  by_cases hE : (toolsOf c).isEmpty
  · rw [if_pos hE]
    rw [List.isEmpty_iff] at hE
    rw [hE]
    rfl
  · rw [if_neg hE]
    exact http_fold_eq c (toolsOf c) m

theorem registerBackend_eq (d : BackendConfig → Except String (List ToolObj))
    (c : BackendConfig) (m : ToolMap) :
    registerBackend d c m = insertAll (backendPairs d c) m := by
  unfold registerBackend backendPairs
  by_cases h1 : c.script.isSome
  · simp [h1, register_stdio_eq]
  · by_cases h2 : c.host.isSome
    · simp [h1, h2, register_http_eq]
    · simp [h1, h2, insertAll]

theorem configPairs_append (d : BackendConfig → Except String (List ToolObj))
    (xs ys : List BackendConfig) :
    configPairs d (xs ++ ys) = configPairs d xs ++ configPairs d ys := by
  induction xs with
  | nil => rfl
  | cons c cs ih => simp [configPairs, ih]

theorem initializeRegistry_eq (d : BackendConfig → Except String (List ToolObj)) :
    ∀ (cfgs : List BackendConfig) (m : ToolMap),
    initializeRegistry d cfgs m = insertAll (configPairs d cfgs) m := by
  intro cfgs
  induction cfgs with
  | nil => intro m; rfl
  | cons c cs ih =>
    intro m
    show initializeRegistry d cs (registerBackend d c m)
        = insertAll (backendPairs d c ++ configPairs d cs) m
    rw [ih, registerBackend_eq, insertAll_append]

theorem mem_keysOf_append {n : String} (ps qs : List (String × RegEntry)) :
    n ∈ keysOf (ps ++ qs) ↔ n ∈ keysOf ps ∨ n ∈ keysOf qs := by
  simp [keysOf]

theorem mem_keysOf_configPairs {n : String}
    (d : BackendConfig → Except String (List ToolObj)) :
    ∀ (cfgs : List BackendConfig),
    n ∈ keysOf (configPairs d cfgs) ↔ ∃ c ∈ cfgs, n ∈ registeredNames d c := by
  intro cfgs
  induction cfgs with
  | nil => simp [configPairs, keysOf]
  | cons c cs ih =>
    show n ∈ keysOf (backendPairs d c ++ configPairs d cs) ↔ _
    rw [mem_keysOf_append, ih]
    simp [registeredNames]

/-! ### Claims about registry initialization -/

/-- C1: when two backends in the processed sequence both register a tool name
`n` (and no later backend does), the final `tool_map` binds `n` to exactly one
entry — key occurrence count one — and that entry is precisely what the
later-processed backend alone would have registered (last-write-wins in
config-processing order). -/
theorem c1_last_write_wins (d : BackendConfig → Except String (List ToolObj))
    (pre mid post : List BackendConfig) (cA cB : BackendConfig) (n : String)
    (h1 : n ∈ registeredNames d cA) (h2 : n ∈ registeredNames d cB)
    (hpost : ∀ c ∈ post, n ∉ registeredNames d c) :
    alookup n (initializeRegistry d (pre ++ cA :: mid ++ cB :: post) [])
      = alookup n (initializeRegistry d [cB] []) ∧
    (∃ e, alookup n (initializeRegistry d (pre ++ cA :: mid ++ cB :: post) []) = some e) ∧
    (keysOf (initializeRegistry d (pre ++ cA :: mid ++ cB :: post) [])).count n = 1 := by
  obtain ⟨w, hw⟩ : ∃ w, lastVal n (backendPairs d cB) = some w := by
    cases hl : lastVal n (backendPairs d cB) with
    | none => exact absurd ((lastVal_eq_none_iff _ _).mp hl) (not_not_intro h2)
    | some w => exact ⟨w, rfl⟩
  have hpostNone : lastVal n (configPairs d post) = none := by
    rw [lastVal_eq_none_iff]
    intro hmem
    obtain ⟨c, hc, hn⟩ := (mem_keysOf_configPairs d post).mp hmem
    exact hpost c hc hn
  have hlast : lastVal n (configPairs d (pre ++ cA :: mid ++ cB :: post)) = some w := by
    rw [configPairs_append, lastVal_append]
    rw [show configPairs d (cB :: post)
        = backendPairs d cB ++ configPairs d post from rfl]
    rw [lastVal_append, hpostNone, hw]
  have hlhs : alookup n (initializeRegistry d (pre ++ cA :: mid ++ cB :: post) [])
      = some w := by
    rw [initializeRegistry_eq, alookup_insertAll, hlast]
  have hrhs : alookup n (initializeRegistry d [cB] []) = some w := by
    rw [initializeRegistry_eq, alookup_insertAll]
    rw [show configPairs d [cB] = backendPairs d cB ++ configPairs d [] from rfl]
    rw [lastVal_append]
    rw [show lastVal n (configPairs d ([] : List BackendConfig)) = none from rfl, hw]
  refine ⟨by rw [hlhs, hrhs], ⟨w, hlhs⟩, ?_⟩
  have hnd : (keysOf (initializeRegistry d (pre ++ cA :: mid ++ cB :: post) [])).Nodup := by
    rw [initializeRegistry_eq]
    exact nodup_keysOf_insertAll _ [] (by simp [keysOf])
  exact List.count_eq_one_of_mem hnd (mem_of_alookup_isSome hlhs)

/-- C3: a stdio backend whose discovery fails is a no-op on the map — the
exception is caught inside `_register_stdio_server`, so initialization of the
whole sequence equals initialization without the failing backend, and every
tool name of every other backend (of either kind) still ends up registered. -/
theorem c3_failure_isolation (d : BackendConfig → Except String (List ToolObj))
    (pre post : List BackendConfig) (cBad : BackendConfig) (m0 : ToolMap)
    (sc : String) (err : String)
    (hscript : cBad.script = some sc)
    (hfail : d cBad = .error err) :
    initializeRegistry d (pre ++ cBad :: post) m0 = initializeRegistry d (pre ++ post) m0 ∧
    (∀ c ∈ pre ++ post, ∀ n ∈ registeredNames d c,
      ∃ e, alookup n (initializeRegistry d (pre ++ cBad :: post) m0) = some e) := by
  have hbadPairs : backendPairs d cBad = [] := by
    unfold backendPairs stdioPairs
    rw [hscript]
    simp [hfail]
  have hpairs : configPairs d (pre ++ cBad :: post) = configPairs d (pre ++ post) := by
    rw [configPairs_append, configPairs_append]
    rw [show configPairs d (cBad :: post)
        = backendPairs d cBad ++ configPairs d post from rfl]
    rw [hbadPairs]
    rfl
  constructor
  · rw [initializeRegistry_eq, initializeRegistry_eq, hpairs]
  · intro c hc n hn
    have hmem : n ∈ keysOf (configPairs d (pre ++ cBad :: post)) := by
      rw [hpairs]
      exact (mem_keysOf_configPairs d (pre ++ post)).mpr ⟨c, hc, hn⟩
    rw [initializeRegistry_eq, alookup_insertAll]
    cases hl : lastVal n (configPairs d (pre ++ cBad :: post)) with
    | none => exact absurd ((lastVal_eq_none_iff _ _).mp hl) (not_not_intro hmem)
    | some w => exact ⟨w, rfl⟩

/-- C10: a second `initialize` call on the same instance keeps building on the
existing `tool_map`: every key present before is still present afterwards; a
name registered by no backend of the new config sequence keeps its exact old
entry; and the map is extended incrementally, one backend at a time, rather
than rebuilt atomically. -/
theorem c10_reinitialize_preserves (d : BackendConfig → Except String (List ToolObj))
    (cfgs : List BackendConfig) (m0 : ToolMap) :
    (∀ n e, alookup n m0 = some e →
      ∃ e2, alookup n (initializeRegistry d cfgs m0) = some e2) ∧
    (∀ n, (∀ c ∈ cfgs, n ∉ registeredNames d c) →
      alookup n (initializeRegistry d cfgs m0) = alookup n m0) ∧
    (∀ c cs, initializeRegistry d (c :: cs) m0
      = initializeRegistry d cs (registerBackend d c m0)) := by
  refine ⟨?_, ?_, ?_⟩
  · intro n e he
    rw [initializeRegistry_eq, alookup_insertAll]
    cases hl : lastVal n (configPairs d cfgs) with
    | none => exact ⟨e, he⟩
    | some w => exact ⟨w, rfl⟩
  · intro n hnone
    rw [initializeRegistry_eq, alookup_insertAll]
    have hl : lastVal n (configPairs d cfgs) = none := by
      rw [lastVal_eq_none_iff]
      intro hmem
      obtain ⟨c, hc, hn⟩ := (mem_keysOf_configPairs d cfgs).mp hmem
      exact hnone c hc hn
    rw [hl]
  · intro c cs
    rfl

/-! ### Tool-call dispatch (`MultiMCP.call_tool`) -/

/-- Runtime Python value returned by `call_tool` — enough structure to state
what shape the caller sees (attribute objects, lists, strings, booleans). -/
inductive PyVal where
  | vstr (s : String)
  | vbool (b : Bool)
  | vnone
  | vlist (xs : List PyVal)
  | vobj (fields : List (String × PyVal))

/-- Attribute access on a runtime value: only attribute objects expose
fields. -/
def attrOf (v : PyVal) (k : String) : Option PyVal :=
  match v with
  | .vobj fs => alookup k fs
  | _ => none

/-- The claimed normalized envelope shape `\x7b content: \x7b text: string \x7d \x7d`:
a `content` attribute that itself has a string `text` attribute. -/
def hasEnvelopeShape (v : PyVal) : Bool :=
  match attrOf v "content" with
  | some inner =>
    match attrOf inner "text" with
    | some (.vstr _) => true
    | _ => false
  | none => false

/-- One content block of an MCP tool result.  Modelled from the external `mcp`
client library (not part of this repository): `ClientSession.call_tool`
returns a `CallToolResult` whose `content` attribute is a LIST of typed
content blocks (`TextContent` has a `type` and a `text` field). -/
structure McpContent where
  contentType : String
  text : String

/-- Result object of the external `mcp` library's `call_tool`. -/
structure McpCallResult where
  content : List McpContent
  isError : Bool

/-- The runtime shape of an `McpCallResult`: `content` is a list of blocks,
each an object with `type`/`text` attributes. -/
def mcpResultToPy (r : McpCallResult) : PyVal :=
  .vobj [("content", .vlist (r.content.map fun c =>
            .vobj [("type", .vstr c.contentType), ("text", .vstr c.text)])),
         ("isError", .vbool r.isError)]

/-- The `SimpleNamespace(content=SimpleNamespace(text=response.text))` value
built by the HTTP branch of `call_tool` ("Normalize to mimic MCP TextContent
responses"). -/
def envelopePy (text : String) : PyVal :=
  .vobj [("content", .vobj [("text", .vstr text)])]

/-- Request description assembled by the HTTP branch of `call_tool`: either a
GET carrying the arguments as query parameters, or a POST carrying them as a
JSON body. -/
structure HttpRequest where
  method : String
  url : String
  queryParams : Option Json
  jsonBody : Option Json

/-- An HTTP response as seen through `httpx`: status code and body text. -/
structure HttpResponse where
  status : Nat
  text : String

/-- Errors surfaced by `call_tool`: `ValueError` for an unknown tool, missing
host/endpoint or unsupported transport, `KeyError` for `config["script"]`,
`RuntimeError` wrapping an `httpx.HTTPError`. -/
inductive CallError where
  | valueError (msg : String)
  | keyError (key : String)
  | runtimeError (msg : String)

/-- Python `host.rstrip("/")`: drop every trailing slash. -/
def rstripSlash (s : String) : String :=
  String.mk ((s.toList.reverse.dropWhile fun c => c == '/').reverse)

/-- Model of the request construction in the HTTP branch of `call_tool`
(`src/core/session.py` lines 158–174): take host from the stored config and
endpoint/method from the entry; a falsy host or endpoint is a `ValueError`;
`url = host.rstrip("/") + endpoint`; a GET sends `params=arguments`, anything
else is sent with `client.post(url, json=arguments)`. -/
def buildHttpRequest (entry : RegEntry) (arguments : Json) : Except CallError HttpRequest :=
  match entry.config.host, entry.endpoint with
  | some h, some ep =>
    if h == "" || ep == "" then
      .error (.valueError "HTTP tool lacks host or endpoint configuration.")
    else if pyUpper (entry.method.getD "POST") == "GET" then
      .ok { method := "GET", url := rstripSlash h ++ ep,
            queryParams := some arguments, jsonBody := none }
    else
      .ok { method := "POST", url := rstripSlash h ++ ep,
            queryParams := none, jsonBody := some arguments }
  | _, _ => .error (.valueError "HTTP tool lacks host or endpoint configuration.")

/-- Model of `MultiMCP.call_tool`: look the tool up (a miss is a
`ValueError`), then dispatch on the stored transport.  The stdio branch
returns the backend's `McpCallResult` verbatim (`stdioCall` is the oracle for
the fresh subprocess session); the HTTP branch sends the request built by
`buildHttpRequest` through the `httpSend` oracle, raises for a non-2xx status,
and wraps the body text in the normalized envelope. -/
def call_tool (m : ToolMap)
    (stdioCall : String → Option String → String → Json → McpCallResult)
    (httpSend : HttpRequest → HttpResponse)
    (tool_name : String) (arguments : Json) : Except CallError PyVal :=
  match alookup tool_name m with
  | none => .error (.valueError "Tool not found on any server.")
  | some entry =>
    if entry.transport == "stdio" then
      match entry.config.script with
      | none => .error (.keyError "script")
      | some script =>
        .ok (mcpResultToPy (stdioCall script entry.config.cwd tool_name arguments))
    else if entry.transport == "http" then
      match buildHttpRequest entry arguments with
      | .error e => .error e
      | .ok req =>
        let resp := httpSend req
        if 200 ≤ resp.status && resp.status < 300 then
          .ok (envelopePy resp.text)
        else
          .error (.runtimeError "HTTP tool request failed.")
    else
      .error (.valueError "Unsupported transport.")

/-! ### Claims about the call dispatch -/

/-- C7: for every HTTP-bound tool call whose request construction succeeds,
the URL is `host.rstrip("/") + endpoint`, and the arguments travel as query
parameters exactly when the configured method (normalized to upper case,
default POST) is GET, otherwise as a JSON body of a POST. -/
theorem c7_http_request_shape (entry : RegEntry) (args : Json) (h ep : String)
    (req : HttpRequest)
    (hhost : entry.config.host = some h) (hep : entry.endpoint = some ep)
    (hreq : buildHttpRequest entry args = .ok req) :
    req.url = rstripSlash h ++ ep ∧
    (pyUpper (entry.method.getD "POST") = "GET" →
      req.method = "GET" ∧ req.queryParams = some args ∧ req.jsonBody = none) ∧
    (pyUpper (entry.method.getD "POST") ≠ "GET" →
      req.method = "POST" ∧ req.jsonBody = some args ∧ req.queryParams = none) := by
  unfold buildHttpRequest at hreq
  rw [hhost, hep] at hreq
  dsimp only [] at hreq
  by_cases hz : (h == "" || ep == "") = true
  · rw [if_pos hz] at hreq
    exact absurd hreq (by simp)
  · rw [if_neg hz] at hreq
    by_cases hg : (pyUpper (entry.method.getD "POST") == "GET") = true
    · rw [if_pos hg] at hreq
      injection hreq with hreq
      subst hreq
      refine ⟨rfl, ?_, ?_⟩
      · intro _
        exact ⟨rfl, rfl, rfl⟩
      · intro hne
        exact absurd (by simpa using hg) hne
    · rw [if_neg hg] at hreq
      injection hreq with hreq
      subst hreq
      refine ⟨rfl, ?_, ?_⟩
      · intro heq
        exact absurd (by simp [heq]) hg
      · intro _
        exact ⟨rfl, rfl, rfl⟩

/-- Every stdio pass-through result fails the envelope-shape test: its
`content` attribute is a list, which has no `text` attribute. -/
theorem hasEnvelopeShape_mcpResult (r : McpCallResult) :
    hasEnvelopeShape (mcpResultToPy r) = false := rfl

/-- C2 (amended): for every successful `call_tool`, an HTTP-transport entry
yields the normalized envelope `\x7b content: \x7b text \x7d \x7d`, but a
stdio-transport entry yields the MCP library result verbatim — whose `content`
is a list of blocks, so it does NOT satisfy the envelope shape.  The envelope
is therefore not uniform across transports and callers must branch on the
result shape. -/
theorem c2_amended_envelope (m : ToolMap)
    (stdioCall : String → Option String → String → Json → McpCallResult)
    (httpSend : HttpRequest → HttpResponse)
    (tool_name : String) (args : Json) (entry : RegEntry) (v : PyVal)
    (hentry : alookup tool_name m = some entry)
    (hok : call_tool m stdioCall httpSend tool_name args = .ok v) :
    (entry.transport = "http" → hasEnvelopeShape v = true) ∧
    (entry.transport = "stdio" → hasEnvelopeShape v = false ∧
      ∃ script, entry.config.script = some script ∧
        v = mcpResultToPy (stdioCall script entry.config.cwd tool_name args)) := by
  unfold call_tool at hok
  rw [hentry] at hok
  dsimp only [] at hok
  constructor
  · intro ht
    rw [ht] at hok
    simp only [show (("http" == "stdio") = true) = False by simp, if_false,
      show (("http" == "http") = true) = True by simp, if_true] at hok
    cases hb : buildHttpRequest entry args with
    | error e =>
      rw [hb] at hok
      exact absurd hok (by simp)
    | ok req =>
      rw [hb] at hok
      dsimp only [] at hok
      by_cases hst : (200 ≤ (httpSend req).status && (httpSend req).status < 300) = true
      · rw [if_pos hst] at hok
        injection hok with hok
        subst hok
        rfl
      · rw [if_neg hst] at hok
        exact absurd hok (by simp)
  · intro ht
    rw [ht] at hok
    simp only [show (("stdio" == "stdio") = true) = True by simp, if_true] at hok
    cases hs : entry.config.script with
    | none =>
      rw [hs] at hok
      exact absurd hok (by simp)
    | some script =>
      rw [hs] at hok
      dsimp only [] at hok
      injection hok with hok
      subst hok
      exact ⟨hasEnvelopeShape_mcpResult _, script, rfl, rfl⟩

/-! ### Concrete configurations and oracles for the registry claims -/

/-- Stdio backend config for script `a.py`. -/
def cfgStdioA : BackendConfig :=
  { script := some "a.py", cwd := none, host := none, name := none,
    description := none, tools := none }

/-- Stdio backend config for script `b.py`. -/
def cfgStdioB : BackendConfig :=
  { script := some "b.py", cwd := none, host := none, name := none,
    description := none, tools := none }

/-- Stdio backend config whose discovery fails. -/
def cfgBad : BackendConfig :=
  { script := some "bad.py", cwd := none, host := none, name := none,
    description := none, tools := none }

/-- HTTP tool definition with a lower-case GET method. -/
def tdSend : ToolDef :=
  { name := some "send", endpoint := some "/send", method := some "get",
    description := none, parameters := none }

/-- HTTP backend config with one valid tool and a trailing slash on the
host. -/
def cfgHttp : BackendConfig :=
  { script := none, cwd := none, host := some "http://localhost:8000/",
    name := some "svc", description := none, tools := some [tdSend] }

/-- Discovery oracle: `bad.py` raises, every other stdio backend exposes one
tool named `dup`. -/
def dEx : BackendConfig → Except String (List ToolObj) := fun c =>
  if c.script == some "bad.py" then .error "spawn failed"
  else .ok [{ name := "dup", description := "", parameters := Json.obj [] }]

/-- C1 witness: two stdio backends both expose `dup`; the final map binds
`dup` exactly once, to what the second backend alone would register. -/
theorem c1_last_write_wins_witness :
    alookup "dup" (initializeRegistry dEx [cfgStdioA, cfgStdioB] [])
      = alookup "dup" (initializeRegistry dEx [cfgStdioB] []) ∧
    (∃ e, alookup "dup" (initializeRegistry dEx [cfgStdioA, cfgStdioB] []) = some e) ∧
    (keysOf (initializeRegistry dEx [cfgStdioA, cfgStdioB] [])).count "dup" = 1 :=
  c1_last_write_wins dEx [] [] [] cfgStdioA cfgStdioB "dup"
    (by decide) (by decide) (by intro c hc; exact absurd hc (by simp))

/-- C3 witness: dropping the failing middle backend changes nothing, and the
tools of the healthy stdio and HTTP backends are registered. -/
theorem c3_failure_isolation_witness :
    (initializeRegistry dEx [cfgStdioA, cfgBad, cfgHttp] []
      = initializeRegistry dEx [cfgStdioA, cfgHttp] []) ∧
    (∃ e, alookup "dup" (initializeRegistry dEx [cfgStdioA, cfgBad, cfgHttp] []) = some e) ∧
    (∃ e, alookup "send" (initializeRegistry dEx [cfgStdioA, cfgBad, cfgHttp] []) = some e) := by
  have h := c3_failure_isolation dEx [cfgStdioA] [cfgHttp] cfgBad [] "bad.py"
    "spawn failed" rfl rfl
  refine ⟨h.1, ?_, ?_⟩
  · exact h.2 cfgStdioA (by simp) "dup" (by decide)
  · exact h.2 cfgHttp (by simp) "send" (by decide)

/-- Registry entry left over from an earlier `initialize` call. -/
def oldEntry : RegEntry :=
  stdioEntry cfgStdioB { name := "old", description := "", parameters := Json.obj [] }

/-- C10 witness: re-initializing over a non-empty map keeps the pre-existing
`old` binding untouched while adding the new backend's tools one backend at a
time. -/
theorem c10_reinitialize_preserves_witness :
    (∃ e2, alookup "old" (initializeRegistry dEx [cfgStdioA] [("old", oldEntry)]) = some e2) ∧
    alookup "old" (initializeRegistry dEx [cfgStdioA] [("old", oldEntry)])
      = alookup "old" [("old", oldEntry)] ∧
    initializeRegistry dEx [cfgStdioA] [("old", oldEntry)]
      = initializeRegistry dEx [] (registerBackend dEx cfgStdioA [("old", oldEntry)]) := by
  have h := c10_reinitialize_preserves dEx [cfgStdioA] [("old", oldEntry)]
  refine ⟨h.1 "old" oldEntry rfl, ?_, h.2.2 cfgStdioA []⟩
  exact h.2.1 "old" (by intro c hc; simp at hc; subst hc; decide)

/-- Arguments used by the C7 witness. -/
def c7args : Json := Json.obj [("q", Json.str "ping")]

/-- The request the C7 witness expects. -/
def c7req : HttpRequest :=
  { method := "GET", url := rstripSlash "http://localhost:8000/" ++ "/send",
    queryParams := some c7args, jsonBody := none }

/-- C7 witness: the statically configured GET tool sends its arguments as
query parameters against `host.rstrip("/") + endpoint`. -/
theorem c7_http_request_shape_witness :
    c7req.url = rstripSlash "http://localhost:8000/" ++ "/send" ∧
    (pyUpper ((httpEntry cfgHttp tdSend).method.getD "POST") = "GET" →
      c7req.method = "GET" ∧ c7req.queryParams = some c7args ∧ c7req.jsonBody = none) ∧
    (pyUpper ((httpEntry cfgHttp tdSend).method.getD "POST") ≠ "GET" →
      c7req.method = "POST" ∧ c7req.jsonBody = some c7args ∧ c7req.queryParams = none) :=
  c7_http_request_shape (httpEntry cfgHttp tdSend) c7args "http://localhost:8000/"
    "/send" c7req rfl rfl (by rfl)

/-- Stdio registry entry for the C2 scenarios. -/
def stdioEntryEx : RegEntry :=
  stdioEntry cfgStdioA { name := "echo", description := "", parameters := Json.obj [] }

/-- Stdio oracle returning one text block, the normal MCP success shape. -/
def stdioOracleEx : String → Option String → String → Json → McpCallResult :=
  fun _ _ _ _ => { content := [{ contentType := "text", text := "hello" }], isError := false }

/-- HTTP oracle returning a plain 200 with body `pong`. -/
def httpSendEx : HttpRequest → HttpResponse := fun _ => { status := 200, text := "pong" }

/-- The value the stdio branch returns for the C2 counterexample. -/
def stdioResultEx : PyVal :=
  mcpResultToPy { content := [{ contentType := "text", text := "hello" }], isError := false }

/-- C2 counterexample: a successful stdio call through `call_tool` returns the
MCP result verbatim, and that value does not have the claimed
`\x7b content: \x7b text: string \x7d \x7d` envelope shape — its `content` is
a list of blocks, not an object with a `text` field. -/
theorem c2_counterexample :
    call_tool [("echo", stdioEntryEx)] stdioOracleEx httpSendEx "echo" (Json.obj [])
      = .ok stdioResultEx ∧
    hasEnvelopeShape stdioResultEx = false :=
  ⟨rfl, rfl⟩

/-- Map holding one stdio and one HTTP tool for the C2 amended witness. -/
def mapBothEx : ToolMap :=
  [("echo", stdioEntryEx), ("send", httpEntry cfgHttp tdSend)]

/-- C2 amended witness: on the same registry, the HTTP tool's successful
result has the envelope shape while the stdio tool's does not. -/
theorem c2_amended_envelope_witness :
    (hasEnvelopeShape (envelopePy "pong") = true ∧
      call_tool mapBothEx stdioOracleEx httpSendEx "send" (Json.obj [])
        = .ok (envelopePy "pong")) ∧
    (hasEnvelopeShape stdioResultEx = false ∧
      call_tool mapBothEx stdioOracleEx httpSendEx "echo" (Json.obj [])
        = .ok stdioResultEx) := by
  refine ⟨⟨?_, by rfl⟩, ⟨?_, rfl⟩⟩
  · exact (c2_amended_envelope mapBothEx stdioOracleEx httpSendEx "send" (Json.obj [])
      (httpEntry cfgHttp tdSend) (envelopePy "pong") rfl (by rfl)).1 rfl
  · exact ((c2_amended_envelope mapBothEx stdioOracleEx httpSendEx "echo" (Json.obj [])
      stdioEntryEx stdioResultEx rfl rfl).2 rfl).1
